import Mathlib

/-!
Shallow embedding of the two import-rewriting scripts
`replace-imports.py` and `replace-imports-deep.py`.

Modelling conventions:
* File contents are `List Char`.
* A filesystem path (`pathlib.Path`) is a `PyPath`: a drive/root marker plus
  the list of path components.  `os.path.relpath` raises `ValueError` exactly
  when the two paths live on different drives (the Windows case the scripts
  guard against); this is modelled by `relpath` returning `none` in that case.
* Python's `\s` is modelled as ASCII whitespace, and `[^'"]` as any character
  other than the two quote characters, as in the scripts' patterns.
-/

def isQuote (c : Char) : Bool := c = '\'' || c = '"'

def isSpace (c : Char) : Bool :=
  c = ' ' || c = '\t' || c = '\n' || c = '\r' || c = '\x0b' || c = '\x0c'

/-- No character of the list is a quote character. -/
def NoQuote (l : List Char) : Prop := ∀ c ∈ l, isQuote c = false

instance (l : List Char) : Decidable (NoQuote l) := by
  unfold NoQuote; infer_instance

/-- A `pathlib.Path`: drive/root marker (empty on POSIX) and components. -/
structure PyPath where
  drive : List Char
  parts : List (List Char)
deriving DecidableEq, Repr

/-- `SRC_DIR = Path("/home/kennedy/ankaa/separating/web") / "src"`. -/
def SRC_DIR : PyPath :=
  ⟨[], ["home".toList, "kennedy".toList, "ankaa".toList, "separating".toList,
        "web".toList, "src".toList]⟩

/-- `PACKAGES = ["constants", "types", "utils", "schemas", "api-client", "hooks"]`. -/
def PACKAGES : List (List Char) :=
  ["constants".toList, "types".toList, "utils".toList, "schemas".toList,
   "api-client".toList, "hooks".toList]

/-- `Path.parent`: drop the last component. -/
def parentOf (p : PyPath) : PyPath := ⟨p.drive, p.parts.dropLast⟩

/-- Split a relative path string into components at `/`. -/
def splitSeg : List Char → List (List Char)
  | [] => [[]]
  | c :: rest =>
    match splitSeg rest with
    | [] => [[]]
    | s :: ss => if c = '/' then [] :: s :: ss else (c :: s) :: ss

/-- `pathlib` path division: split at `/`, collapsing empty components and
single dots.  (The scripts always pass a sub-path already stripped of leading
slashes, so the absolute-right-operand case of `/` never arises.) -/
def splitSlash (cs : List Char) : List (List Char) :=
  (splitSeg cs).filter (fun s => !s.isEmpty && !(s = ['.'] : Bool))

/-- Target directory `SRC_DIR / target_package / sub_path` (or without the
sub-path when it is empty). -/
def targetDirOf (pkg sub : List Char) : PyPath :=
  if sub.isEmpty then ⟨SRC_DIR.drive, SRC_DIR.parts ++ [pkg]⟩
  else ⟨SRC_DIR.drive, SRC_DIR.parts ++ [pkg] ++ splitSlash sub⟩

/-- Drop the longest common prefix of two component lists, returning the two
remainders. -/
def dropCommonPre : List (List Char) → List (List Char) →
    List (List Char) × List (List Char)
  | x :: xs, y :: ys =>
    if x = y then dropCommonPre xs ys else (x :: xs, y :: ys)
  | xs, ys => (xs, ys)

/-- Join components with `/`. -/
def joinSlash : List (List Char) → List Char
  | [] => []
  | [s] => s
  | s :: rest => s ++ '/' :: joinSlash rest

/-- The components of `os.path.relpath`: one `..` per remaining component of
the start directory, then the remaining components of the target. -/
def relpathSegs (target start : List (List Char)) : List (List Char) :=
  let p := dropCommonPre target start
  List.replicate p.2.length ['.', '.'] ++ p.1

/-- `os.path.relpath(target, start)`.  Returns `none` when the paths are on
different drives (`ValueError` on Windows); otherwise the relative path,
`"."` when the two directories coincide. -/
def relpath (target start : PyPath) : Option (List Char) :=
  if target.drive ≠ start.drive then none
  else
    let segs := relpathSegs target.parts start.parts
    some (joinSlash (if segs.isEmpty then [['.']] else segs))

/-- `startswith("..")` on a character list. -/
def startsDotDot (cs : List Char) : Bool := List.isPrefixOf ['.', '.'] cs

/-- `get_relative_path` of `replace-imports-deep.py`: relative import path
from `file_path`'s directory to the package (sub-)directory, with backslashes
replaced by forward slashes and a `./` prefix when the path does not start
with `..`; falls back to `"package/sub_path"` when `relpath` fails. -/
def get_relative_path (file_path : PyPath) (pkg sub : List Char) : List Char :=
  match relpath (targetDirOf pkg sub) (parentOf file_path) with
  | some rel =>
    let rel := rel.map (fun c => if c = '\\' then '/' else c)
    if startsDotDot rel then rel else '.' :: '/' :: rel
  | none => if sub.isEmpty then pkg else pkg ++ '/' :: sub

/-- `get_relative_path` of `replace-imports.py`: same computation without a
sub-path; the fallback is the bare package name. -/
def get_relative_path_basic (file_path : PyPath) (pkg : List Char) : List Char :=
  match relpath (targetDirOf pkg []) (parentOf file_path) with
  | some rel =>
    let rel := rel.map (fun c => if c = '\\' then '/' else c)
    if startsDotDot rel then rel else '.' :: '/' :: rel
  | none => pkg

/-- The file of the spec's concrete scenario:
`src/components/widgets/Button.ts`. -/
def buttonPath : PyPath :=
  ⟨[], ["home".toList, "kennedy".toList, "ankaa".toList, "separating".toList,
        "web".toList, "src".toList, "components".toList, "widgets".toList,
        "Button.ts".toList]⟩

/-- Number of `..` components of a relative path string. -/
def dotdotCount (cs : List Char) : Nat :=
  ((splitSeg cs).filter (fun s => s = ['.', '.'])).length

/-! ## The import pattern matcher

The deep pattern is
`(from\s+['"]|import\s*\(\s*['"])@ankaa/PKG(/[^'"]+)?(['"])`,
the basic pattern is `(from\s+['"])@ankaa/PKG(['"])`.
The matcher below is a direct deterministic implementation: the only
backtracking point of the patterns, the optional greedy group `(/[^'"]+)?`
followed by `['"]`, resolves to "maximal run of non-quote characters ending
at a quote, or the empty option", which the code cases on explicitly. -/

/-- Match a literal, returning the rest of the input. -/
def litMatch : List Char → List Char → Option (List Char)
  | [], s => some s
  | _ :: _, [] => none
  | l :: ls, c :: cs => if c = l then litMatch ls cs else none

/-- Maximal run of whitespace (`\s*`), returning it and the rest. -/
def takeSpaces : List Char → List Char × List Char
  | [] => ([], [])
  | c :: cs =>
    if isSpace c then
      let p := takeSpaces cs
      (c :: p.1, p.2)
    else ([], c :: cs)

def fromLit : List Char := "from".toList

def importLit : List Char := "import".toList

/-- `@ankaa/`. -/
def atAnkaa : List Char := "@ankaa/".toList

/-- First alternative of group 1: `from\s+['"]`.  Returns the consumed
characters (the group-1 text) and the rest. -/
def parseFromPre (s : List Char) : Option (List Char × List Char) :=
  match litMatch fromLit s with
  | none => none
  | some r1 =>
    match takeSpaces r1 with
    | ([], _) => none
    | (w :: ws, q :: r3) =>
      if isQuote q then some (fromLit ++ (w :: ws) ++ [q], r3) else none
    | (_ :: _, []) => none

/-- Second alternative of group 1: `import\s*\(\s*['"]`. -/
def parseImportPre (s : List Char) : Option (List Char × List Char) :=
  match litMatch importLit s with
  | none => none
  | some r1 =>
    match takeSpaces r1 with
    | (ws1, '(' :: r3) =>
      match takeSpaces r3 with
      | (ws2, q :: r5) =>
        if isQuote q then some (importLit ++ ws1 ++ '(' :: ws2 ++ [q], r5)
        else none
      | (_, []) => none
    | _ => none

/-- Group 1 of the deep pattern, alternatives tried in pattern order. -/
def parsePre (s : List Char) : Option (List Char × List Char) :=
  match parseFromPre s with
  | some r => some r
  | none => parseImportPre s

/-- The part of the pattern after group 1:
`@ankaa/PKG(/[^'"]+)?(['"])`.  Returns (group 2, group 3, rest). -/
def matchBody (pkg : List Char) (s : List Char) :
    Option (Option (List Char) × Char × List Char) :=
  match litMatch (atAnkaa ++ pkg) s with
  | some ('/' :: r2) =>
    match r2.takeWhile (fun c => !isQuote c), r2.drop (r2.takeWhile (fun c => !isQuote c)).length with
    | [], _ => none
    | t1 :: ts, q :: r4 =>
      if isQuote q then some (some ('/' :: t1 :: ts), q, r4) else none
    | _ :: _, [] => none
  | some (q :: r2) => if isQuote q then some (none, q, r2) else none
  | _ => none

/-- One match of the deep pattern: full matched text, group 1 (`pre`),
group 2 (`sub`) and group 3 (`quote`). -/
structure MatchData where
  full : List Char
  pre : List Char
  sub : Option (List Char)
  quote : Char
deriving DecidableEq, Repr

/-- Try the deep pattern at the start of `s`. -/
def tryMatch (pkg : List Char) (s : List Char) : Option MatchData :=
  match parsePre s with
  | none => none
  | some (pre, r1) =>
    match matchBody pkg r1 with
    | none => none
    | some (g2, q, _) =>
      some ⟨pre ++ atAnkaa ++ pkg ++ g2.getD [] ++ [q], pre, g2, q⟩

/-- `re.finditer`: non-overlapping matches, leftmost first, resuming after
each match.  Structured with explicit fuel so that it evaluates by kernel
reduction. -/
def findMatchesAux (pkg : List Char) : Nat → List Char → List MatchData
  | 0, _ => []
  | _ + 1, [] => []
  | fuel + 1, c :: rest =>
    match tryMatch pkg (c :: rest) with
    | some m => m :: findMatchesAux pkg fuel (rest.drop (m.full.length - 1))
    | none => findMatchesAux pkg fuel rest

def findMatches (pkg cs : List Char) : List MatchData :=
  findMatchesAux pkg cs.length cs

/-- `str.replace(old, new, 1)`: replace the first occurrence of `old`. -/
def replaceFirst (old new : List Char) : List Char → List Char
  | [] => if old.isEmpty then new else []
  | c :: rest =>
    if List.isPrefixOf old (c :: rest) then new ++ (c :: rest).drop old.length
    else c :: replaceFirst old new rest

/-- `sub_path.lstrip('/')` applied to group 2 (`""` when group 2 is absent). -/
def subPathOf (g2 : Option (List Char)) : List Char :=
  (g2.getD []).dropWhile (fun c => c = '/')

/-- Process one match of `replace_deep_imports_in_file`: compute the relative
path and replace the first occurrence of the matched text. -/
def applyMatch (fp : PyPath) (pkg : List Char) (content : List Char)
    (m : MatchData) : List Char :=
  let rel := get_relative_path fp pkg (subPathOf m.sub)
  replaceFirst m.full (m.pre ++ rel ++ [m.quote]) content

/-- One package pass of `replace_deep_imports_in_file`: find all matches in
the current content, then substitute them one at a time; the count is the
number of matches. -/
def processPkg (fp : PyPath) (pkg content : List Char) : List Char × Nat :=
  let ms := findMatches pkg content
  (ms.foldl (applyMatch fp pkg) content, ms.length)

/-- The pure content transformation of `replace_deep_imports_in_file`:
the package loop, threading the content and the total count. -/
def replaceDeepContent (fp : PyPath) (content : List Char) : List Char × Nat :=
  PACKAGES.foldl
    (fun acc pkg =>
      let r := processPkg fp pkg acc.1
      (r.1, acc.2 + r.2))
    (content, 0)

/-! ## The basic rewriter (`replace-imports.py`) -/

/-- Try the basic pattern `(from\s+['"])@ankaa/PKG(['"])` at the start of
`s`. -/
def tryMatchBasic (pkg : List Char) (s : List Char) : Option MatchData :=
  match parseFromPre s with
  | none => none
  | some (pre, r1) =>
    match litMatch (atAnkaa ++ pkg) r1 with
    | none => none
    | some r2 =>
      match r2 with
      | q :: _ =>
        if isQuote q then some ⟨pre ++ atAnkaa ++ pkg ++ [q], pre, none, q⟩
        else none
      | [] => none

/-- `re.findall` for the basic pattern (same scan as `finditer`). -/
def findMatchesBasicAux (pkg : List Char) : Nat → List Char → List MatchData
  | 0, _ => []
  | _ + 1, [] => []
  | fuel + 1, c :: rest =>
    match tryMatchBasic pkg (c :: rest) with
    | some m => m :: findMatchesBasicAux pkg fuel (rest.drop (m.full.length - 1))
    | none => findMatchesBasicAux pkg fuel rest

def findMatchesBasic (pkg cs : List Char) : List MatchData :=
  findMatchesBasicAux pkg cs.length cs

/-- `re.sub(pattern, rf'\1{rel_path}\2', content)`: every match is replaced
by group 1, the relative path, group 3. -/
def substBasicAux (pkg rel : List Char) : Nat → List Char → List Char
  | 0, cs => cs
  | _ + 1, [] => []
  | fuel + 1, c :: rest =>
    match tryMatchBasic pkg (c :: rest) with
    | some m =>
      (m.pre ++ rel ++ [m.quote]) ++
        substBasicAux pkg rel fuel (rest.drop (m.full.length - 1))
    | none => c :: substBasicAux pkg rel fuel rest

def substBasic (pkg rel cs : List Char) : List Char :=
  substBasicAux pkg rel cs.length cs

/-- One package pass of `replace_imports_in_file`: count the matches and, if
any, substitute them all with the file's relative path for the package. -/
def processPkgBasic (fp : PyPath) (pkg content : List Char) : List Char × Nat :=
  let ms := findMatchesBasic pkg content
  if ms.isEmpty then (content, 0)
  else (substBasic pkg (get_relative_path_basic fp pkg) content, ms.length)

/-- The pure content transformation of `replace_imports_in_file`. -/
def replaceBasicContent (fp : PyPath) (content : List Char) : List Char × Nat :=
  PACKAGES.foldl
    (fun acc pkg =>
      let r := processPkgBasic fp pkg acc.1
      (r.1, acc.2 + r.2))
    (content, 0)

/-! ## File-level behaviour -/

/-- Result of processing one file: the returned `(modified, count)` pair and
the content written back, `none` when the file is not (successfully)
written. -/
structure FileOutcome where
  modified : Bool
  count : Nat
  written : Option (List Char)
deriving DecidableEq, Repr

/-- `replace_deep_imports_in_file`.  `readRes` is the result of reading the
file (`none` = read error), `writeOk` tells whether writing back succeeds.
On a read error the function returns `(False, 0)`; it writes back only when
the content changed, and a write error also yields `(False, 0)`. -/
def replace_deep_imports_in_file (fp : PyPath) (readRes : Option (List Char))
    (writeOk : Bool) : FileOutcome :=
  match readRes with
  | none => ⟨false, 0, none⟩
  | some content =>
    let r := replaceDeepContent fp content
    if r.1 ≠ content then
      if writeOk then ⟨true, r.2, some r.1⟩ else ⟨false, 0, none⟩
    else ⟨false, 0, none⟩

/-- `replace_imports_in_file` of `replace-imports.py`. -/
def replace_imports_in_file (fp : PyPath) (readRes : Option (List Char))
    (writeOk : Bool) : FileOutcome :=
  match readRes with
  | none => ⟨false, 0, none⟩
  | some content =>
    let r := replaceBasicContent fp content
    if r.1 ≠ content then
      if writeOk then ⟨true, r.2, some r.1⟩ else ⟨false, 0, none⟩
    else ⟨false, 0, none⟩

/-! ## Directory traversal (`process_directory`) -/

/-- One candidate yielded by `directory.rglob("*.ts*")`: its path, whether it
is a regular file, and the read/write behaviour of the filesystem for it. -/
structure FileEntry where
  path : PyPath
  isFile : Bool
  readRes : Option (List Char)
  writeOk : Bool
deriving DecidableEq, Repr

/-- The `stats` dictionary of `process_directory`. -/
structure Stats where
  files_processed : Nat
  files_modified : Nat
  total_replacements : Nat
  errors : List (List Char)
deriving DecidableEq, Repr

/-- `"node_modules" in file_path.parts or ".git" in file_path.parts`. -/
def excluded (p : PyPath) : Bool :=
  p.parts.contains "node_modules".toList || p.parts.contains ".git".toList

/-- The `rglob("*.ts*")` name filter: the file name contains `.ts`. -/
def matchesTsGlob (p : PyPath) : Bool :=
  decide (".ts".toList <:+: p.parts.getLastD [])

/-- The errors shown by the summary: `stats['errors'][:10]`. -/
def summaryErrors (s : Stats) : List (List Char) := s.errors.take 10

/-- Loop body of `process_directory` shared by both scripts, parameterised by
the per-file rewriter.  Excluded or non-regular entries are skipped before
any file access; otherwise the entry is counted and the rewriter runs. -/
def stepDir (rewriter : PyPath → Option (List Char) → Bool → FileOutcome)
    (st : Stats) (e : FileEntry) : Stats :=
  if excluded e.path then st
  else if !e.isFile then st
  else
    let st := { st with files_processed := st.files_processed + 1 }
    let r := rewriter e.path e.readRes e.writeOk
    if r.modified then
      { st with
        files_modified := st.files_modified + 1
        total_replacements := st.total_replacements + r.count }
    else st

/-- `process_directory` of `replace-imports-deep.py` over the `rglob`
candidates. -/
def process_directory_deep (files : List FileEntry) : Stats :=
  files.foldl (stepDir replace_deep_imports_in_file) ⟨0, 0, 0, []⟩

/-- `process_directory` of `replace-imports.py`. -/
def process_directory_basic (files : List FileEntry) : Stats :=
  files.foldl (stepDir replace_imports_in_file) ⟨0, 0, 0, []⟩

/-! ## Lemmas about the matcher -/

theorem litMatch_some {lit s r : List Char} (h : litMatch lit s = some r) :
    s = lit ++ r := by
  induction lit generalizing s with
  | nil => simp only [litMatch, Option.some.injEq] at h; simp [h]
  | cons l ls ih =>
    cases s with
    | nil => simp [litMatch] at h
    | cons c cs =>
      by_cases hc : c = l
      · subst hc
        simp only [litMatch, if_pos rfl] at h
        simpa using ih h
      · simp [litMatch, hc] at h

theorem litMatch_self_append (lit r : List Char) :
    litMatch lit (lit ++ r) = some r := by
  induction lit with
  | nil => simp [litMatch]
  | cons l ls ih => simp [litMatch, ih]

theorem litMatch_shared (x y z : List Char) :
    litMatch (x ++ y) (x ++ z) = litMatch y z := by
  induction x with
  | nil => simp
  | cons c cs ih => simp [litMatch, ih]

theorem litMatch_ne_heads {a b : List Char} (ha : a ≠ []) (hb : b ≠ [])
    (h : a.head? ≠ b.head?) (rest : List Char) :
    litMatch a (b ++ rest) = none := by
  rcases a with _ | ⟨x, xs⟩
  · exact absurd rfl ha
  rcases b with _ | ⟨y, ys⟩
  · exact absurd rfl hb
  simp only [List.head?] at h
  have : y ≠ x := fun hyx => h (by rw [hyx])
  simp [litMatch, this]

theorem takeSpaces_eq (s : List Char) :
    s = (takeSpaces s).1 ++ (takeSpaces s).2 ∧
      ∀ c ∈ (takeSpaces s).1, isSpace c = true := by
  induction s with
  | nil => simp [takeSpaces]
  | cons c cs ih =>
    by_cases hc : isSpace c
    · simp only [takeSpaces, if_pos hc]
      refine ⟨by simpa using ih.1, ?_⟩
      intro d hd
      rcases List.mem_cons.mp hd with h | h
      · exact h ▸ hc
      · exact ih.2 d h
    · simp [takeSpaces, hc]

theorem space_not_quote {c : Char} (h : isSpace c = true) : isQuote c = false := by
  simp only [isSpace, Bool.or_eq_true, decide_eq_true_eq] at h
  rcases h with ((((h | h) | h) | h) | h) | h <;> subst h <;> decide

theorem quote_not_space {c : Char} (h : isQuote c = true) : isSpace c = false := by
  simp only [isQuote, Bool.or_eq_true, decide_eq_true_eq] at h
  rcases h with h | h <;> subst h <;> decide

/-- Successful group-1 parse via the `from` alternative: the consumed text is
a non-empty quote-free run followed by one quote character. -/
theorem parseFromPre_quote {s pre r : List Char}
    (h : parseFromPre s = some (pre, r)) :
    ∃ a q, s = a ++ q :: r ∧ a ≠ [] ∧ NoQuote a ∧ isQuote q = true ∧
      pre = a ++ [q] := by
  unfold parseFromPre at h
  split at h
  · exact absurd h (by simp)
  rename_i r1 hl
  split at h
  · exact absurd h (by simp)
  · rename_i w ws' q r3 hts
    have hsp := takeSpaces_eq r1
    have hsp1 : r1 = (w :: ws') ++ q :: r3 := by rw [hts] at hsp; exact hsp.1
    have hsp2 : ∀ c ∈ w :: ws', isSpace c = true := by
      rw [hts] at hsp; exact hsp.2
    split at h
    · rename_i hq
      simp only [Option.some.injEq, Prod.mk.injEq] at h
      obtain ⟨hpre, hr⟩ := h
      refine ⟨fromLit ++ (w :: ws'), q, ?_, by simp, ?_, hq, ?_⟩
      · rw [litMatch_some hl, hsp1, hr]; simp
      · intro c hc
        rcases List.mem_append.mp hc with hc | hc
        · exact (by decide : NoQuote fromLit) c hc
        · exact space_not_quote (hsp2 c hc)
      · rw [← hpre]
    · exact absurd h (by simp)
  · exact absurd h (by simp)

/-- Successful group-1 parse via the `import(` alternative. -/
theorem parseImportPre_quote {s pre r : List Char}
    (h : parseImportPre s = some (pre, r)) :
    ∃ a q, s = a ++ q :: r ∧ a ≠ [] ∧ NoQuote a ∧ isQuote q = true ∧
      pre = a ++ [q] := by
  unfold parseImportPre at h
  split at h
  · exact absurd h (by simp)
  rename_i r1 hl
  split at h
  · rename_i ws1 r3 hts
    have hsp := takeSpaces_eq r1
    have hsp1 : r1 = ws1 ++ '(' :: r3 := by rw [hts] at hsp; exact hsp.1
    have hsp2 : ∀ c ∈ ws1, isSpace c = true := by rw [hts] at hsp; exact hsp.2
    split at h
    · rename_i ws2 q r5 hts2
      have hsq := takeSpaces_eq r3
      have hsq1 : r3 = ws2 ++ q :: r5 := by rw [hts2] at hsq; exact hsq.1
      have hsq2 : ∀ c ∈ ws2, isSpace c = true := by
        rw [hts2] at hsq; exact hsq.2
      split at h
      · rename_i hq
        simp only [Option.some.injEq, Prod.mk.injEq] at h
        obtain ⟨hpre, hr⟩ := h
        refine ⟨importLit ++ ws1 ++ '(' :: ws2, q, ?_, by simp, ?_, hq, ?_⟩
        · rw [litMatch_some hl, hsp1, hsq1, hr]; simp
        · intro c hc
          rcases List.mem_append.mp hc with hc | hc
          · rcases List.mem_append.mp hc with hc | hc
            · exact (by decide : NoQuote importLit) c hc
            · exact space_not_quote (hsp2 c hc)
          · rcases List.mem_cons.mp hc with hc | hc
            · subst hc; decide
            · exact space_not_quote (hsq2 c hc)
        · rw [← hpre]
      · exact absurd h (by simp)
    · exact absurd h (by simp)
  · exact absurd h (by simp)

/-- Group 1 always consumes a non-empty quote-free run followed by exactly one
quote character. -/
theorem parsePre_quote {s pre r : List Char} (h : parsePre s = some (pre, r)) :
    ∃ a q, s = a ++ q :: r ∧ a ≠ [] ∧ NoQuote a ∧ isQuote q = true ∧
      pre = a ++ [q] := by
  unfold parsePre at h
  rcases hf : parseFromPre s with _ | p
  · rw [hf] at h
    exact parseImportPre_quote h
  · rw [hf] at h
    cases p with
    | mk a b =>
      simp only [Option.some.injEq, Prod.mk.injEq] at h
      obtain ⟨h1, h2⟩ := h
      exact parseFromPre_quote (h1 ▸ h2 ▸ hf)

/-- A string has at most one decomposition as a quote-free part followed by a
quote. -/
theorem quote_decomp_unique {x x' y y' : List Char} {q q' : Char}
    (hx : NoQuote x) (hx' : NoQuote x') (hq : isQuote q = true)
    (hq' : isQuote q' = true) (h : x ++ q :: y = x' ++ q' :: y') :
    x = x' ∧ q = q' ∧ y = y' := by
  induction x generalizing x' with
  | nil =>
    cases x' with
    | nil => simpa using h
    | cons c cs =>
      simp only [List.nil_append, List.cons_append, List.cons.injEq] at h
      exfalso
      have := hx' c (by simp)
      rw [← h.1] at this
      rw [this] at hq
      exact Bool.false_ne_true hq
  | cons c cs ih =>
    cases x' with
    | nil =>
      simp only [List.nil_append, List.cons_append, List.cons.injEq] at h
      exfalso
      have := hx c (by simp)
      rw [h.1] at this
      rw [this] at hq'
      exact Bool.false_ne_true hq'
    | cons d ds =>
      simp only [List.cons_append, List.cons.injEq] at h
      obtain ⟨hcd, ht⟩ := h
      have := ih (fun e he => hx e (by simp [he]))
        (fun e he => hx' e (by simp [he])) ht
      exact ⟨by rw [hcd, this.1], this.2.1, this.2.2⟩

/-- `matchBody` fails unless the input starts with `@`. -/
theorem matchBody_not_at {pkg s : List Char} (h : s.head? ≠ some '@') :
    matchBody pkg s = none := by
  have hat : atAnkaa ++ pkg = '@' :: ("ankaa/".toList ++ pkg) := by
    simp [atAnkaa]
  unfold matchBody
  rw [hat]
  cases s with
  | nil => simp [litMatch]
  | cons c cs =>
    have hc : c ≠ '@' := by
      intro hc; exact h (by simp [List.head?, hc])
    simp [litMatch, hc]

/-- `tryMatch` fails on a quote-free prefix followed by a quote whose tail
does not match the pattern body. -/
theorem tryMatch_none_of_shape {pkg : List Char} (X Y : List Char) (q : Char)
    (hX : NoQuote X) (hq : isQuote q = true) (hB : matchBody pkg Y = none) :
    tryMatch pkg (X ++ q :: Y) = none := by
  rcases hp : parsePre (X ++ q :: Y) with _ | ⟨pre, r⟩
  · simp only [tryMatch, hp]
  obtain ⟨a, q2, hdec, hane, hNQ, hq2, hpre⟩ := parsePre_quote hp
  obtain ⟨h1, h2, h3⟩ := quote_decomp_unique hX hNQ hq hq2 hdec
  rw [h3] at hB
  simp only [tryMatch, hp, hB]

/-- `tryMatch` fails on quote-free input. -/
theorem tryMatch_none_of_noquote {pkg : List Char} (s : List Char)
    (hs : NoQuote s) : tryMatch pkg s = none := by
  unfold tryMatch
  rcases hp : parsePre s with _ | ⟨pre, r⟩
  · rfl
  obtain ⟨a, q, hdec, -, -, hq, -⟩ := parsePre_quote hp
  exfalso
  have : isQuote q = false := hs q (by rw [hdec]; simp)
  rw [this] at hq
  exact Bool.false_ne_true hq

/-- A suffix of `xs ++ ys` is a suffix of `ys` or has the form
`xs' ++ ys` for some suffix `xs'` of `xs`. -/
theorem suffix_split {α : Type} {s : List α} (xs ys : List α)
    (h : s <:+ xs ++ ys) : s <:+ ys ∨ ∃ xs', xs' <:+ xs ∧ s = xs' ++ ys := by
  induction xs with
  | nil => exact Or.inl (by simpa using h)
  | cons x xs' ih =>
    rw [List.cons_append, List.suffix_cons_iff] at h
    rcases h with h | h
    · exact Or.inr ⟨x :: xs', List.suffix_refl _, h⟩
    · rcases ih h with h | ⟨xs'', hs, he⟩
      · exact Or.inl h
      · exact Or.inr ⟨xs'', hs.trans (List.suffix_cons x xs'), he⟩

theorem NoQuote_of_suffix {s t : List Char} (hs : s <:+ t) (ht : NoQuote t) :
    NoQuote s := fun c hc => ht c (List.IsSuffix.subset hs hc)

/-- At no position of `A ++ q1 :: R ++ q2 :: T` does the deep pattern match,
provided `A`, `R`, `T` are quote-free and the pattern body fails after each
of the two quotes. -/
theorem tryMatch_none_structured {pkg : List Char} (A R T : List Char)
    (q1 q2 : Char) (hA : NoQuote A) (hR : NoQuote R) (hT : NoQuote T)
    (hq1 : isQuote q1 = true) (hq2 : isQuote q2 = true)
    (h1 : matchBody pkg (R ++ q2 :: T) = none)
    (h2 : matchBody pkg T = none) :
    ∀ s, s <:+ A ++ (q1 :: (R ++ q2 :: T)) → tryMatch pkg s = none := by
  intro s hs
  rcases suffix_split A (q1 :: (R ++ q2 :: T)) hs with hs | ⟨A', hA', he⟩
  · rw [List.suffix_cons_iff] at hs
    rcases hs with hs | hs
    · exact hs ▸ tryMatch_none_of_shape [] (R ++ q2 :: T) q1
        (by simp [NoQuote]) hq1 h1
    · rcases suffix_split R (q2 :: T) hs with hs | ⟨R', hR', he⟩
      · rw [List.suffix_cons_iff] at hs
        rcases hs with hs | hs
        · exact hs ▸ tryMatch_none_of_shape [] T q2 (by simp [NoQuote]) hq2 h2
        · exact tryMatch_none_of_noquote s (NoQuote_of_suffix hs hT)
      · subst he
        exact tryMatch_none_of_shape R' T q2 (NoQuote_of_suffix hR' hR) hq2 h2
  · subst he
    exact tryMatch_none_of_shape A' (R ++ q2 :: T) q1
      (NoQuote_of_suffix hA' hA) hq1 h1

/-- When the deep pattern matches nowhere, `finditer` returns no matches
(for any fuel). -/
theorem findMatchesAux_eq_nil {pkg : List Char} :
    ∀ (f : Nat) (cs : List Char),
      (∀ s, s <:+ cs → tryMatch pkg s = none) →
      findMatchesAux pkg f cs = [] := by
  intro f
  induction f with
  | zero => intro cs _; rfl
  | succ f ih =>
    intro cs h
    cases cs with
    | nil => rfl
    | cons c rest =>
      unfold findMatchesAux
      rw [h (c :: rest) (List.suffix_refl _)]
      exact ih rest (fun s hs => h s (hs.trans (List.suffix_cons c rest)))

theorem findMatches_eq_nil {pkg cs : List Char}
    (h : ∀ s, s <:+ cs → tryMatch pkg s = none) : findMatches pkg cs = [] :=
  findMatchesAux_eq_nil cs.length cs h

/-- A basic-pattern match is also a deep-pattern match, so failure of the
deep matcher implies failure of the basic matcher. -/
theorem tryMatchBasic_none {pkg s : List Char} (h : tryMatch pkg s = none) :
    tryMatchBasic pkg s = none := by
  rcases hb : tryMatchBasic pkg s with _ | m
  · rfl
  exfalso
  unfold tryMatchBasic at hb
  split at hb
  · exact absurd hb (by simp)
  rename_i pre r1 hf
  split at hb
  · exact absurd hb (by simp)
  rename_i r2 hl
  split at hb
  · rename_i q tl
    split at hb
    · rename_i hq
      have hpp : parsePre s = some (pre, r1) := by
        unfold parsePre; rw [hf]
      have hqs : q ≠ '/' := by
        intro hqe; rw [hqe] at hq; exact absurd hq (by decide)
      have hmb : matchBody pkg r1 = some (none, q, tl) := by
        unfold matchBody
        rw [hl]
        split
        · rename_i r2' heq
          rw [Option.some.injEq] at heq
          exact absurd (List.cons.inj heq).1 hqs
        · rename_i q' r2' heq
          rw [Option.some.injEq] at heq
          obtain ⟨hq', hr'⟩ := List.cons.inj heq
          subst hq'
          subst hr'
          rw [if_pos hq]
        · rename_i hne1 hne2
          exact absurd rfl (hne2 q tl)
      have hsome : tryMatch pkg s ≠ none := by
        simp [tryMatch, hpp, hmb]
      exact hsome h
    · exact absurd hb (by simp)
  · exact absurd hb (by simp)

theorem findMatchesBasicAux_eq_nil {pkg : List Char} :
    ∀ (f : Nat) (cs : List Char),
      (∀ s, s <:+ cs → tryMatchBasic pkg s = none) →
      findMatchesBasicAux pkg f cs = [] := by
  intro f
  induction f with
  | zero => intro cs _; rfl
  | succ f ih =>
    intro cs h
    cases cs with
    | nil => rfl
    | cons c rest =>
      unfold findMatchesBasicAux
      rw [h (c :: rest) (List.suffix_refl _)]
      exact ih rest (fun s hs => h s (hs.trans (List.suffix_cons c rest)))

theorem findMatchesBasic_eq_nil {pkg cs : List Char}
    (h : ∀ s, s <:+ cs → tryMatch pkg s = none) :
    findMatchesBasic pkg cs = [] :=
  findMatchesBasicAux_eq_nil cs.length cs
    (fun s hs => tryMatchBasic_none (h s hs))

/-! ## Properties of the computed relative paths -/

theorem joinSlash_noquote {l : List (List Char)} (h : ∀ s ∈ l, NoQuote s) :
    NoQuote (joinSlash l) := by
  induction l with
  | nil => intro c hc; simp [joinSlash] at hc
  | cons s rest ih =>
    cases rest with
    | nil =>
      intro c hc
      exact h s (by simp) c (by simpa [joinSlash] using hc)
    | cons s2 rest2 =>
      intro c hc
      simp only [joinSlash, List.mem_append, List.mem_cons] at hc
      rcases hc with hc | hc | hc
      · exact h s (by simp) c hc
      · subst hc; decide
      · exact ih (fun t ht => h t (by simp [ht])) c hc

theorem dropCommonPre_sub {a b : List (List Char)} :
    ∀ x ∈ (dropCommonPre a b).1, x ∈ a := by
  induction a generalizing b with
  | nil =>
    intro x hx
    cases b <;> simp [dropCommonPre] at hx
  | cons s rest ih =>
    intro x hx
    cases b with
    | nil => simpa [dropCommonPre] using hx
    | cons t bs =>
      by_cases hst : s = t
      · simp only [dropCommonPre, if_pos hst] at hx
        exact List.mem_cons_of_mem s (ih x hx)
      · simpa [dropCommonPre, hst] using hx

theorem splitSeg_chars {cs : List Char} : ∀ s ∈ splitSeg cs, ∀ c ∈ s, c ∈ cs := by
  induction cs with
  | nil =>
    intro s hs c hc
    simp only [splitSeg, List.mem_singleton] at hs
    subst hs
    simp at hc
  | cons d rest ih =>
    intro s hs c hc
    rcases hsr : splitSeg rest with _ | ⟨t, ts⟩
    · have hs' : s ∈ [([] : List Char)] := by
        rw [splitSeg, hsr] at hs; exact hs
      simp only [List.mem_singleton] at hs'
      subst hs'
      simp at hc
    · have hs' : s ∈ (if d = '/' then [] :: t :: ts else (d :: t) :: ts) := by
        rw [splitSeg, hsr] at hs; exact hs
      by_cases hd : d = '/'
      · rw [if_pos hd] at hs'
        rcases List.mem_cons.mp hs' with hs' | hs'
        · subst hs'; simp at hc
        · exact List.mem_cons_of_mem d (ih s (hsr ▸ hs') c hc)
      · rw [if_neg hd] at hs'
        rcases List.mem_cons.mp hs' with hs' | hs'
        · subst hs'
          rcases List.mem_cons.mp hc with hc | hc
          · simp [hc]
          · exact List.mem_cons_of_mem d (ih t (by simp [hsr]) c hc)
        · exact List.mem_cons_of_mem d (ih s (by simp [hsr, hs']) c hc)

theorem splitSlash_noquote {sub : List Char} (h : NoQuote sub) :
    ∀ s ∈ splitSlash sub, NoQuote s := by
  intro s hs c hc
  have : s ∈ splitSeg sub := List.mem_of_mem_filter hs
  exact h c (splitSeg_chars s this c hc)

theorem packages_facts :
    ∀ p ∈ PACKAGES, p ≠ [] ∧ p.head? ≠ some '@' ∧ NoQuote p := by decide

theorem srcdir_noquote : ∀ s ∈ SRC_DIR.parts, NoQuote s := by decide

/-- Every component of the `relpath` component list for a target below
`SRC_DIR` is quote-free (given a quote-free sub-path). -/
theorem relpathSegs_noquote {pkg sub : List Char} (hpkg : pkg ∈ PACKAGES)
    (hsub : NoQuote sub) (start : List (List Char)) :
    ∀ s ∈ relpathSegs (targetDirOf pkg sub).parts start, NoQuote s := by
  intro s hs
  unfold relpathSegs at hs
  rcases List.mem_append.mp hs with hs | hs
  · have := List.eq_of_mem_replicate hs
    subst this
    decide
  · have hmem : s ∈ (targetDirOf pkg sub).parts := dropCommonPre_sub s hs
    unfold targetDirOf at hmem
    by_cases hse : sub.isEmpty
    · rw [if_pos hse] at hmem
      rcases List.mem_append.mp hmem with hm | hm
      · exact srcdir_noquote s hm
      · rw [List.mem_singleton] at hm
        subst hm
        exact (packages_facts s hpkg).2.2
    · rw [if_neg hse] at hmem
      rcases List.mem_append.mp hmem with hm | hm
      · rcases List.mem_append.mp hm with hm | hm
        · exact srcdir_noquote s hm
        · rw [List.mem_singleton] at hm
          subst hm
          exact (packages_facts s hpkg).2.2
      · exact splitSlash_noquote hsub s hm

theorem noquote_map_slash {l : List Char} (h : NoQuote l) :
    NoQuote (l.map (fun c => if c = '\\' then '/' else c)) := by
  intro c hc
  rcases List.mem_map.mp hc with ⟨d, hd, he⟩
  by_cases hds : d = '\\'
  · rw [hds] at he
    simp only [if_pos rfl] at he
    subst he
    decide
  · rw [if_neg hds] at he
    subst he
    exact h d hd

/-- The relative path computed by the deep script is quote-free whenever the
sub-path is. -/
theorem get_relative_path_noquote {fp : PyPath} {pkg sub : List Char}
    (hpkg : pkg ∈ PACKAGES) (hsub : NoQuote sub) :
    NoQuote (get_relative_path fp pkg sub) := by
  unfold get_relative_path
  rcases hr : relpath (targetDirOf pkg sub) (parentOf fp) with _ | rel
  · show NoQuote (if sub.isEmpty = true then pkg else pkg ++ '/' :: sub)
    by_cases hse : sub.isEmpty
    · rw [if_pos hse]
      exact (packages_facts pkg hpkg).2.2
    · rw [if_neg hse]
      intro c hc
      rcases List.mem_append.mp hc with hc | hc
      · exact (packages_facts pkg hpkg).2.2 c hc
      · rcases List.mem_cons.mp hc with hc | hc
        · subst hc; decide
        · exact hsub c hc
  · have hrelq : NoQuote rel := by
      unfold relpath at hr
      split at hr
      · exact absurd hr (by simp)
      · simp only [Option.some.injEq] at hr
        subst hr
        split
        · exact joinSlash_noquote
            (by intro s hs; rw [List.mem_singleton] at hs; subst hs; decide)
        · exact joinSlash_noquote (relpathSegs_noquote hpkg hsub _)
    have hmapq := noquote_map_slash hrelq
    show NoQuote (if startsDotDot (rel.map (fun c => if c = '\\' then '/' else c)) = true
        then rel.map (fun c => if c = '\\' then '/' else c)
        else '.' :: '/' :: rel.map (fun c => if c = '\\' then '/' else c))
    split
    · exact hmapq
    · intro c hc
      rcases List.mem_cons.mp hc with hc | hc
      · subst hc; decide
      · rcases List.mem_cons.mp hc with hc | hc
        · subst hc; decide
        · exact hmapq c hc

/-- The relative path is non-empty and never starts with `@`: on success it
starts with `.`, on fallback with the package name's first character. -/
theorem get_relative_path_head (fp : PyPath) {pkg : List Char}
    (sub : List Char) (hpkg : pkg ∈ PACKAGES) :
    ∃ c cs, get_relative_path fp pkg sub = c :: cs ∧ c ≠ '@' := by
  obtain ⟨hne, hhead, -⟩ := packages_facts pkg hpkg
  unfold get_relative_path
  rcases hr : relpath (targetDirOf pkg sub) (parentOf fp) with _ | rel
  · show ∃ c cs,
      (if sub.isEmpty = true then pkg else pkg ++ '/' :: sub) = c :: cs ∧
        c ≠ '@'
    rcases hp : pkg with _ | ⟨p0, ps⟩
    · exact absurd hp hne
    have hp0 : p0 ≠ '@' := by
      intro hc
      rw [hp, hc] at hhead
      simp at hhead
    by_cases hse : sub.isEmpty
    · rw [if_pos hse]
      exact ⟨p0, ps, rfl, hp0⟩
    · rw [if_neg hse]
      exact ⟨p0, ps ++ '/' :: sub, rfl, hp0⟩
  · show ∃ c cs,
      (if startsDotDot (rel.map (fun c => if c = '\\' then '/' else c)) = true
        then rel.map (fun c => if c = '\\' then '/' else c)
        else '.' :: '/' :: rel.map (fun c => if c = '\\' then '/' else c)) =
        c :: cs ∧ c ≠ '@'
    by_cases hsd : startsDotDot (rel.map (fun c => if c = '\\' then '/' else c))
    · rw [if_pos hsd]
      have hpref : ['.', '.'] <+: rel.map (fun c => if c = '\\' then '/' else c) :=
        List.isPrefixOf_iff_prefix.mp hsd
      obtain ⟨t, ht⟩ := hpref
      refine ⟨'.', '.' :: t, ?_, by decide⟩
      rw [← ht]
      rfl
    · rw [if_neg hsd]
      exact ⟨'.', '/' :: rel.map (fun c => if c = '\\' then '/' else c), rfl,
        by decide⟩

/-! ## Package-pass and fold lemmas -/

theorem processPkg_nil (fp : PyPath) {pkg c : List Char}
    (h : findMatches pkg c = []) : processPkg fp pkg c = (c, 0) := by
  unfold processPkg
  rw [h]
  rfl

theorem processPkgBasic_nil (fp : PyPath) {pkg c : List Char}
    (h : findMatchesBasic pkg c = []) : processPkgBasic fp pkg c = (c, 0) := by
  unfold processPkgBasic
  rw [h]
  rfl

theorem foldDeep_nil (fp : PyPath) {c : List Char} (pkgs : List (List Char))
    (h : ∀ p ∈ pkgs, findMatches p c = []) (n : Nat) :
    pkgs.foldl
      (fun acc pkg =>
        let r := processPkg fp pkg acc.1
        (r.1, acc.2 + r.2))
      (c, n) = (c, n) := by
  induction pkgs with
  | nil => rfl
  | cons p ps ih =>
    rw [List.foldl_cons]
    have hp := processPkg_nil fp (h p (by simp))
    simp only [hp]
    exact ih (fun p' hp' => h p' (by simp [hp']))

theorem foldBasic_nil (fp : PyPath) {c : List Char} (pkgs : List (List Char))
    (h : ∀ p ∈ pkgs, findMatchesBasic p c = []) (n : Nat) :
    pkgs.foldl
      (fun acc pkg =>
        let r := processPkgBasic fp pkg acc.1
        (r.1, acc.2 + r.2))
      (c, n) = (c, n) := by
  induction pkgs with
  | nil => rfl
  | cons p ps ih =>
    rw [List.foldl_cons]
    have hp := processPkgBasic_nil fp (h p (by simp))
    simp only [hp]
    exact ih (fun p' hp' => h p' (by simp [hp']))

/-- No reference to any configured package: the deep rewrite is the
identity. -/
theorem replaceDeepContent_id (fp : PyPath) {c : List Char}
    (h : ∀ p ∈ PACKAGES, findMatches p c = []) :
    replaceDeepContent fp c = (c, 0) := by
  unfold replaceDeepContent
  exact foldDeep_nil fp PACKAGES h 0

theorem replaceBasicContent_id (fp : PyPath) {c : List Char}
    (h : ∀ p ∈ PACKAGES, findMatchesBasic p c = []) :
    replaceBasicContent fp c = (c, 0) := by
  unfold replaceBasicContent
  exact foldBasic_nil fp PACKAGES h 0

/-! ## Helpers for computing single matches symbolically -/

theorem takeWhile_noquote_append {sub : List Char} (hsub : NoQuote sub)
    {q : Char} (hq : isQuote q = true) (t : List Char) :
    (sub ++ q :: t).takeWhile (fun c => !isQuote c) = sub ∧
      (sub ++ q :: t).drop sub.length = q :: t := by
  constructor
  · induction sub with
    | nil => simp [List.takeWhile, hq]
    | cons c cs ih =>
      have hc : isQuote c = false := hsub c (by simp)
      simp only [List.cons_append, List.takeWhile_cons, hc, Bool.not_false,
        if_true, List.cons.injEq, true_and]
      exact ih (fun d hd => hsub d (by simp [hd]))
  · exact List.drop_left sub (q :: t)

theorem dropWhile_not_slash {sub : List Char} (h : sub.head? ≠ some '/') :
    sub.dropWhile (fun c => c = '/') = sub := by
  cases sub with
  | nil => rfl
  | cons c cs =>
    have hc : c ≠ '/' := by
      intro hc
      exact h (by rw [hc]; rfl)
    simp [List.dropWhile_cons, hc]

theorem replaceFirst_self_append (old new rest : List Char) :
    replaceFirst old new (old ++ rest) = new ++ rest := by
  cases old with
  | nil =>
    cases rest with
    | nil => simp [replaceFirst]
    | cons c cs => simp [replaceFirst]
  | cons o os =>
    have hpre : List.isPrefixOf (o :: os) (o :: (os ++ rest)) = true :=
      List.isPrefixOf_iff_prefix.mpr ⟨rest, by simp⟩
    show replaceFirst (o :: os) new (o :: (os ++ rest)) = new ++ rest
    simp only [replaceFirst]
    rw [if_pos hpre, List.length_cons, List.drop_succ_cons, List.drop_left]

theorem takeSpaces_nonspace {c : Char} (h : isSpace c = false) (cs : List Char) :
    takeSpaces (c :: cs) = ([], c :: cs) := by
  simp [takeSpaces, h]

theorem takeSpaces_space {c : Char} (h : isSpace c = true) (cs : List Char) :
    takeSpaces (c :: cs) = (c :: (takeSpaces cs).1, (takeSpaces cs).2) := by
  simp [takeSpaces, h]

/-- Parsing the canonical dynamic-import introducer `import(` followed by a
quote. -/
theorem parseImportPre_canon {q : Char} (hq : isQuote q = true) (X : List Char) :
    parseImportPre (importLit ++ '(' :: q :: X) =
      some (importLit ++ '(' :: [q], X) := by
  simp [parseImportPre, litMatch_self_append,
    takeSpaces_nonspace (show isSpace '(' = false by decide),
    takeSpaces_nonspace (quote_not_space hq), hq]

/-- Parsing the canonical static introducer `from ` followed by a quote. -/
theorem parseFromPre_canon {q : Char} (hq : isQuote q = true) (X : List Char) :
    parseFromPre (fromLit ++ ' ' :: q :: X) =
      some (fromLit ++ ' ' :: [q], X) := by
  simp [parseFromPre, litMatch_self_append,
    takeSpaces_space (show isSpace ' ' = true by decide),
    takeSpaces_nonspace (quote_not_space hq), hq]

theorem parseFromPre_none_import (X : List Char) :
    parseFromPre (importLit ++ X) = none := by
  have h : litMatch fromLit (importLit ++ X) = none := rfl
  unfold parseFromPre
  rw [h]

theorem parsePre_dyn_canon {q : Char} (hq : isQuote q = true) (X : List Char) :
    parsePre (importLit ++ '(' :: q :: X) =
      some (importLit ++ '(' :: [q], X) := by
  unfold parsePre
  rw [show importLit ++ '(' :: q :: X = importLit ++ ('(' :: q :: X) from rfl,
    parseFromPre_none_import]
  exact parseImportPre_canon hq X

theorem parsePre_from_canon {q : Char} (hq : isQuote q = true) (X : List Char) :
    parsePre (fromLit ++ ' ' :: q :: X) =
      some (fromLit ++ ' ' :: [q], X) := by
  unfold parsePre
  rw [parseFromPre_canon hq X]

/-- `matchBody` succeeds on its own package followed by a slash, a non-empty
quote-free sub-path and a closing quote. -/
theorem matchBody_self (pkg : List Char) (sub : List Char) {q : Char}
    (hq : isQuote q = true) (hsub : NoQuote sub) (hsne : sub ≠ [])
    (T : List Char) :
    matchBody pkg ((atAnkaa ++ pkg ++ '/' :: sub) ++ q :: T) =
      some (some ('/' :: sub), q, T) := by
  obtain ⟨s0, ss, rfl⟩ : ∃ s0 ss, sub = s0 :: ss := by
    rcases sub with _ | ⟨a, b⟩
    · exact absurd rfl hsne
    · exact ⟨a, b, rfl⟩
  have hlit : litMatch (atAnkaa ++ pkg)
      ((atAnkaa ++ pkg ++ '/' :: s0 :: ss) ++ q :: T) =
      some ('/' :: (s0 :: ss ++ q :: T)) := by
    have he : (atAnkaa ++ pkg ++ '/' :: s0 :: ss) ++ q :: T =
        (atAnkaa ++ pkg) ++ ('/' :: (s0 :: ss ++ q :: T)) := by simp
    rw [he, litMatch_self_append]
  have htw := takeWhile_noquote_append hsub hq T
  unfold matchBody
  rw [hlit]
  simp only [htw.1, htw.2, hq, if_true]

/-- `matchBody` for one configured package fails on text that continues with
a different configured package name. -/
theorem matchBody_ne_pkg {p pkg : List Char} (hp : p ∈ PACKAGES)
    (hpkg : pkg ∈ PACKAGES) (hne : p ≠ pkg) (X : List Char) :
    matchBody p (atAnkaa ++ (pkg ++ X)) = none := by
  have hall : ∀ p' ∈ PACKAGES, ∀ pk ∈ PACKAGES, p' ≠ pk →
      (p' ≠ [] ∧ pk ≠ [] ∧ p'.head? ≠ pk.head?) := by decide
  obtain ⟨h1, h2, h3⟩ := hall p hp pkg hpkg hne
  have hlit : litMatch (atAnkaa ++ p) (atAnkaa ++ (pkg ++ X)) = none := by
    rw [litMatch_shared]
    exact litMatch_ne_heads h1 h2 h3 X
  unfold matchBody
  rw [hlit]

/-- The canonical dynamic-import reference `import(q@ankaa/PKG/SUBq)`. -/
def dynRef (pkg sub : List Char) (q : Char) : List Char :=
  importLit ++ '(' :: q :: ((atAnkaa ++ pkg ++ '/' :: sub) ++ q :: [')'])

/-- The canonical static-import reference `from q@ankaa/PKG/SUBq`. -/
def fromRef (pkg sub : List Char) (q : Char) : List Char :=
  fromLit ++ ' ' :: q :: ((atAnkaa ++ pkg ++ '/' :: sub) ++ q :: [])

/-- The rewritten dynamic-import reference: call syntax preserved around the
relative path. -/
def dynOut (fp : PyPath) (pkg sub : List Char) (q : Char) : List Char :=
  importLit ++ '(' :: q :: (get_relative_path fp pkg sub ++ q :: [')'])

/-- The rewritten static-import reference. -/
def fromOut (fp : PyPath) (pkg sub : List Char) (q : Char) : List Char :=
  fromLit ++ ' ' :: q :: (get_relative_path fp pkg sub ++ q :: [])

theorem dynRef_structured (pkg sub : List Char) (q : Char) :
    dynRef pkg sub q =
      (importLit ++ ['(']) ++
        (q :: ((atAnkaa ++ pkg ++ '/' :: sub) ++ q :: [')'])) := by
  simp [dynRef]

theorem fromRef_structured (pkg sub : List Char) (q : Char) :
    fromRef pkg sub q =
      (fromLit ++ [' ']) ++
        (q :: ((atAnkaa ++ pkg ++ '/' :: sub) ++ q :: [])) := by
  simp [fromRef]

theorem dynOut_structured (fp : PyPath) (pkg sub : List Char) (q : Char) :
    dynOut fp pkg sub q =
      (importLit ++ ['(']) ++
        (q :: (get_relative_path fp pkg sub ++ q :: [')'])) := by
  simp [dynOut]

theorem fromOut_structured (fp : PyPath) (pkg sub : List Char) (q : Char) :
    fromOut fp pkg sub q =
      (fromLit ++ [' ']) ++
        (q :: (get_relative_path fp pkg sub ++ q :: [])) := by
  simp [fromOut]

/-- `finditer` on content that is exactly one match followed by a tail with
no further matches. -/
theorem findMatches_full_tail {pkg tl : List Char} {m : MatchData}
    (hm : tryMatch pkg (m.full ++ tl) = some m) (hfne : m.full ≠ [])
    (htail : ∀ s, s <:+ tl → tryMatch pkg s = none) :
    findMatches pkg (m.full ++ tl) = [m] := by
  rcases hf : m.full with _ | ⟨c, fs⟩
  · exact absurd hf hfne
  rw [hf] at hm
  have hlen : (m.full).length - 1 = fs.length := by rw [hf]; simp
  show findMatchesAux pkg ((c :: fs ++ tl).length) (c :: fs ++ tl) = [m]
  have hshow : (c :: fs ++ tl).length = (fs ++ tl).length + 1 := by simp
  rw [hshow]
  rw [show (c :: fs ++ tl) = c :: (fs ++ tl) from rfl] at hm ⊢
  show (match tryMatch pkg (c :: (fs ++ tl)) with
    | some m => m :: findMatchesAux pkg (fs ++ tl).length
        (List.drop (m.full.length - 1) (fs ++ tl))
    | none => findMatchesAux pkg (fs ++ tl).length (fs ++ tl)) = [m]
  rw [hm]
  show m :: findMatchesAux pkg (fs ++ tl).length
      (List.drop (m.full.length - 1) (fs ++ tl)) = [m]
  rw [hlen, List.drop_left, findMatchesAux_eq_nil _ tl htail]

theorem tryMatch_rparen (pkg : List Char) :
    ∀ s, s <:+ [')'] → tryMatch pkg s = none := by
  intro s hs
  rw [List.suffix_cons_iff] at hs
  rcases hs with hs | hs
  · subst hs; rfl
  · rw [List.suffix_nil] at hs
    subst hs; rfl

theorem tryMatch_dynRef {pkg sub : List Char} {q : Char} (hq : isQuote q = true)
    (hsub : NoQuote sub) (hsne : sub ≠ []) :
    tryMatch pkg (dynRef pkg sub q) =
      some ⟨(importLit ++ '(' :: [q]) ++ atAnkaa ++ pkg ++ '/' :: sub ++ [q],
        importLit ++ '(' :: [q], some ('/' :: sub), q⟩ := by
  have hp := parsePre_dyn_canon hq ((atAnkaa ++ pkg ++ '/' :: sub) ++ q :: [')'])
  have hmb := matchBody_self pkg sub hq hsub hsne [')']
  simp only [dynRef, tryMatch, hp, hmb, Option.getD]

theorem tryMatch_fromRef {pkg sub : List Char} {q : Char} (hq : isQuote q = true)
    (hsub : NoQuote sub) (hsne : sub ≠ []) :
    tryMatch pkg (fromRef pkg sub q) =
      some ⟨(fromLit ++ ' ' :: [q]) ++ atAnkaa ++ pkg ++ '/' :: sub ++ [q],
        fromLit ++ ' ' :: [q], some ('/' :: sub), q⟩ := by
  have hp := parsePre_from_canon hq ((atAnkaa ++ pkg ++ '/' :: sub) ++ q :: [])
  have hmb := matchBody_self pkg sub hq hsub hsne []
  simp only [fromRef, tryMatch, hp, hmb, Option.getD]

theorem findMatches_dynRef {pkg sub : List Char} {q : Char}
    (hq : isQuote q = true) (hsub : NoQuote sub) (hsne : sub ≠ []) :
    findMatches pkg (dynRef pkg sub q) =
      [⟨(importLit ++ '(' :: [q]) ++ atAnkaa ++ pkg ++ '/' :: sub ++ [q],
        importLit ++ '(' :: [q], some ('/' :: sub), q⟩] := by
  have heq : dynRef pkg sub q =
      ((importLit ++ '(' :: [q]) ++ atAnkaa ++ pkg ++ '/' :: sub ++ [q]) ++
        [')'] := by
    simp [dynRef]
  rw [heq]
  refine findMatches_full_tail
    (m := ⟨(importLit ++ '(' :: [q]) ++ atAnkaa ++ pkg ++ '/' :: sub ++ [q],
      importLit ++ '(' :: [q], some ('/' :: sub), q⟩)
    ?_ ?_ (tryMatch_rparen pkg)
  · rw [← heq]
    exact tryMatch_dynRef hq hsub hsne
  · intro h
    have := congrArg List.length h
    simp at this

theorem findMatches_fromRef {pkg sub : List Char} {q : Char}
    (hq : isQuote q = true) (hsub : NoQuote sub) (hsne : sub ≠ []) :
    findMatches pkg (fromRef pkg sub q) =
      [⟨(fromLit ++ ' ' :: [q]) ++ atAnkaa ++ pkg ++ '/' :: sub ++ [q],
        fromLit ++ ' ' :: [q], some ('/' :: sub), q⟩] := by
  have heq : fromRef pkg sub q =
      ((fromLit ++ ' ' :: [q]) ++ atAnkaa ++ pkg ++ '/' :: sub ++ [q]) ++
        [] := by
    simp [fromRef]
  rw [heq]
  refine findMatches_full_tail
    (m := ⟨(fromLit ++ ' ' :: [q]) ++ atAnkaa ++ pkg ++ '/' :: sub ++ [q],
      fromLit ++ ' ' :: [q], some ('/' :: sub), q⟩)
    ?_ ?_ ?_
  · rw [← heq]
    exact tryMatch_fromRef hq hsub hsne
  · intro h
    have := congrArg List.length h
    simp at this
  · intro s hs
    rw [List.suffix_nil] at hs
    subst hs; rfl

theorem subPathOf_slash {sub : List Char} (hshead : sub.head? ≠ some '/') :
    subPathOf (some ('/' :: sub)) = sub := by
  show ('/' :: sub).dropWhile (fun c => c = '/') = sub
  rw [List.dropWhile_cons]
  rw [if_pos (by decide)]
  exact dropWhile_not_slash hshead

theorem processPkg_dynRef (fp : PyPath) {pkg sub : List Char} {q : Char}
    (hq : isQuote q = true) (hsub : NoQuote sub) (hsne : sub ≠ [])
    (hshead : sub.head? ≠ some '/') :
    processPkg fp pkg (dynRef pkg sub q) = (dynOut fp pkg sub q, 1) := by
  unfold processPkg
  rw [findMatches_dynRef hq hsub hsne]
  simp only [List.foldl_cons, List.foldl_nil, List.length_cons,
    List.length_nil]
  unfold applyMatch
  simp only [subPathOf_slash hshead]
  have heq : dynRef pkg sub q =
      ((importLit ++ '(' :: [q]) ++ atAnkaa ++ pkg ++ '/' :: sub ++ [q]) ++
        [')'] := by
    simp [dynRef]
  rw [heq, replaceFirst_self_append]
  simp [dynOut]

theorem processPkg_fromRef (fp : PyPath) {pkg sub : List Char} {q : Char}
    (hq : isQuote q = true) (hsub : NoQuote sub) (hsne : sub ≠ [])
    (hshead : sub.head? ≠ some '/') :
    processPkg fp pkg (fromRef pkg sub q) = (fromOut fp pkg sub q, 1) := by
  unfold processPkg
  rw [findMatches_fromRef hq hsub hsne]
  simp only [List.foldl_cons, List.foldl_nil, List.length_cons,
    List.length_nil]
  unfold applyMatch
  simp only [subPathOf_slash hshead]
  have heq : fromRef pkg sub q =
      ((fromLit ++ ' ' :: [q]) ++ atAnkaa ++ pkg ++ '/' :: sub ++ [q]) ++
        [] := by
    simp [fromRef]
  rw [heq, replaceFirst_self_append]
  simp [fromOut]

theorem findMatches_structured_nil {pkg : List Char} (A R T : List Char)
    {q1 q2 : Char} (hA : NoQuote A) (hR : NoQuote R) (hT : NoQuote T)
    (hq1 : isQuote q1 = true) (hq2 : isQuote q2 = true)
    (h1 : matchBody pkg (R ++ q2 :: T) = none)
    (h2 : matchBody pkg T = none) :
    findMatches pkg (A ++ (q1 :: (R ++ q2 :: T))) = [] ∧
    findMatchesBasic pkg (A ++ (q1 :: (R ++ q2 :: T))) = [] := by
  have hpt := tryMatch_none_structured A R T q1 q2 hA hR hT hq1 hq2 h1 h2
  exact ⟨findMatches_eq_nil hpt, findMatchesBasic_eq_nil hpt⟩

theorem ref_body_noquote {pkg sub : List Char} (hpkg : pkg ∈ PACKAGES)
    (hsub : NoQuote sub) : NoQuote (atAnkaa ++ pkg ++ '/' :: sub) := by
  intro c hc
  rcases List.mem_append.mp hc with hc | hc
  · rcases List.mem_append.mp hc with hc | hc
    · have hq : NoQuote atAnkaa := by decide
      exact hq c hc
    · exact (packages_facts pkg hpkg).2.2 c hc
  · rcases List.mem_cons.mp hc with hc | hc
    · subst hc; decide
    · exact hsub c hc

/-- Neither the dynamic nor the static canonical reference for `pkg` matches
the pattern of a different configured package `p`. -/
theorem refs_no_match_ne {p pkg sub : List Char} {q : Char}
    (hp : p ∈ PACKAGES) (hpkg : pkg ∈ PACKAGES) (hne : p ≠ pkg)
    (hq : isQuote q = true) (hsub : NoQuote sub) :
    findMatches p (dynRef pkg sub q) = [] ∧
      findMatches p (fromRef pkg sub q) = [] := by
  have h1 : ∀ T : List Char,
      matchBody p ((atAnkaa ++ pkg ++ '/' :: sub) ++ q :: T) = none := by
    intro T
    have h := matchBody_ne_pkg hp hpkg hne ('/' :: (sub ++ q :: T))
    rw [show (atAnkaa ++ pkg ++ '/' :: sub) ++ q :: T =
      atAnkaa ++ (pkg ++ '/' :: (sub ++ q :: T)) by simp]
    exact h
  have hR := ref_body_noquote hpkg hsub
  constructor
  · rw [dynRef_structured]
    exact (findMatches_structured_nil (importLit ++ ['(']) _ [')']
      (by decide) hR (by decide) hq hq (h1 [')'])
      (matchBody_not_at (by simp))).1
  · rw [fromRef_structured]
    exact (findMatches_structured_nil (fromLit ++ [' ']) _ []
      (by decide) hR (by decide) hq hq (h1 [])
      (matchBody_not_at (by simp))).1

/-- A reference already converted to a relative path produces no further
matches, for either script's pattern and any configured package. -/
theorem converted_no_match (p : List Char) (fp : PyPath) {pkg : List Char}
    (sub a T : List Char) {q1 q2 : Char}
    (hpkg : pkg ∈ PACKAGES) (hsub : NoQuote sub) (ha : NoQuote a)
    (hq1 : isQuote q1 = true) (hq2 : isQuote q2 = true)
    (hT : NoQuote T) (hThead : T.head? ≠ some '@') :
    findMatches p (a ++ (q1 :: (get_relative_path fp pkg sub ++ q2 :: T))) = [] ∧
    findMatchesBasic p
      (a ++ (q1 :: (get_relative_path fp pkg sub ++ q2 :: T))) = [] := by
  obtain ⟨c, cs, hrel, hcne⟩ := get_relative_path_head fp sub hpkg
  refine findMatches_structured_nil a _ T ha
    (get_relative_path_noquote hpkg hsub) hT hq1 hq2 ?_ (matchBody_not_at hThead)
  apply matchBody_not_at
  rw [hrel]
  simp [hcne]

theorem nodup_append_cons_ne {α : Type} {L1 L2 : List α} {x : α}
    (h : (L1 ++ x :: L2).Nodup) : ∀ p ∈ L1, p ≠ x := by
  induction L1 with
  | nil => intro p hp; simp at hp
  | cons a as ih =>
    intro p hp
    rw [List.cons_append, List.nodup_cons] at h
    rcases List.mem_cons.mp hp with hp | hp
    · subst hp
      intro he
      exact h.1 (by rw [he]; simp)
    · exact ih h.2 p hp

/-- The package loop around one effective pass: the passes before `pkg` leave
the content alone, the `pkg` pass rewrites it, the passes after leave the new
content alone. -/
theorem foldDeep_split (fp : PyPath) (c c' : List Char) (k : Nat)
    (L1 L2 : List (List Char)) (pkg : List Char)
    (h1 : ∀ p ∈ L1, findMatches p c = [])
    (hstep : processPkg fp pkg c = (c', k))
    (h2 : ∀ p ∈ L2, findMatches p c' = []) :
    (L1 ++ pkg :: L2).foldl
      (fun acc pk =>
        let r := processPkg fp pk acc.1
        (r.1, acc.2 + r.2))
      (c, 0) = (c', k) := by
  rw [List.foldl_append, foldDeep_nil fp L1 h1 0, List.foldl_cons]
  simp only [hstep]
  have := foldDeep_nil fp L2 h2 (0 + k)
  rw [this, Nat.zero_add]

/-- `f'{prefix}{rel_path}{suffix}'`: the text a matched reference is replaced
with. -/
def convertedRef (pre rel : List Char) (q : Char) : List Char :=
  pre ++ rel ++ [q]

/-- C6: a dynamic-import-style reference `import(q@ankaa/PKG/SUBq)` is a
recognized import shape of the deep rewriter: it is rewritten to the same
relative path `get_relative_path fp PKG SUB` as the equivalent static
`from q@ankaa/PKG/SUBq` import, and the surrounding call syntax (the
`import(` introducer, the quotes and the closing parenthesis) is preserved
unchanged around the rewritten path. -/
theorem C6_dynamic_import_shape (fp : PyPath) (pkg sub : List Char) (q : Char)
    (hpkg : pkg ∈ PACKAGES) (hq : isQuote q = true) (hsub : NoQuote sub)
    (hsne : sub ≠ []) (hshead : sub.head? ≠ some '/') :
    replaceDeepContent fp (dynRef pkg sub q) = (dynOut fp pkg sub q, 1) ∧
    replaceDeepContent fp (fromRef pkg sub q) = (fromOut fp pkg sub q, 1) := by
  obtain ⟨L1, L2, hsplit⟩ := List.append_of_mem hpkg
  have hnd : (L1 ++ pkg :: L2).Nodup := by
    rw [← hsplit]; decide
  have hL1ne := nodup_append_cons_ne hnd
  have hmemP : ∀ p, p ∈ L1 ∨ p ∈ L2 → p ∈ PACKAGES := by
    intro p hp
    rw [hsplit]
    rcases hp with hp | hp
    · exact List.mem_append_left _ hp
    · exact List.mem_append_right _ (List.mem_cons_of_mem _ hp)
  constructor
  · unfold replaceDeepContent
    rw [hsplit]
    refine foldDeep_split fp _ _ 1 L1 L2 pkg ?_
      (processPkg_dynRef fp hq hsub hsne hshead) ?_
    · intro p hp
      exact (refs_no_match_ne (hmemP p (Or.inl hp)) hpkg (hL1ne p hp) hq hsub).1
    · intro p hp
      rw [dynOut_structured]
      exact (converted_no_match p fp sub (importLit ++ ['(']) [')'] hpkg hsub
        (by decide) hq hq (by decide) (by decide)).1
  · unfold replaceDeepContent
    rw [hsplit]
    refine foldDeep_split fp _ _ 1 L1 L2 pkg ?_
      (processPkg_fromRef fp hq hsub hsne hshead) ?_
    · intro p hp
      exact (refs_no_match_ne (hmemP p (Or.inl hp)) hpkg (hL1ne p hp) hq hsub).2
    · intro p hp
      rw [fromOut_structured]
      exact (converted_no_match p fp sub (fromLit ++ [' ']) [] hpkg hsub
        (by decide) hq hq (by decide) (by decide)).1

theorem C6_dynamic_import_shape_witness :
    replaceDeepContent buttonPath (dynRef "types".toList "user".toList '"') =
      (dynOut buttonPath "types".toList "user".toList '"', 1) ∧
    replaceDeepContent buttonPath (fromRef "types".toList "user".toList '"') =
      (fromOut buttonPath "types".toList "user".toList '"', 1) :=
  C6_dynamic_import_shape buttonPath "types".toList "user".toList '"'
    (by decide) (by decide) (by decide) (by decide) (by decide)

/-- C4: rewriting is idempotent at the reference level.  A reference that the
first pass converted has the form `prefix ++ rel ++ quote` with
`rel = get_relative_path ...`; on such text every configured package's
pattern (deep and basic) finds zero matches, so re-running either rewriter
performs zero further substitutions and leaves it unchanged. -/
theorem C4_converted_reference_idempotent (fp fp₂ : PyPath)
    (pkg sub a : List Char) (q1 q2 : Char)
    (hpkg : pkg ∈ PACKAGES) (hsub : NoQuote sub) (ha : NoQuote a)
    (hq1 : isQuote q1 = true) (hq2 : isQuote q2 = true) :
    (∀ p ∈ PACKAGES,
      findMatches p
        (convertedRef (a ++ [q1]) (get_relative_path fp pkg sub) q2) = [] ∧
      findMatchesBasic p
        (convertedRef (a ++ [q1]) (get_relative_path_basic fp pkg) q2) = []) ∧
    replaceDeepContent fp₂
        (convertedRef (a ++ [q1]) (get_relative_path fp pkg sub) q2) =
      (convertedRef (a ++ [q1]) (get_relative_path fp pkg sub) q2, 0) ∧
    replaceBasicContent fp₂
        (convertedRef (a ++ [q1]) (get_relative_path_basic fp pkg) q2) =
      (convertedRef (a ++ [q1]) (get_relative_path_basic fp pkg) q2, 0) := by
  have hbeq : get_relative_path_basic fp pkg = get_relative_path fp pkg [] :=
    rfl
  have hD : convertedRef (a ++ [q1]) (get_relative_path fp pkg sub) q2 =
      a ++ (q1 :: (get_relative_path fp pkg sub ++ q2 :: [])) := by
    simp [convertedRef]
  have hB : convertedRef (a ++ [q1]) (get_relative_path_basic fp pkg) q2 =
      a ++ (q1 :: (get_relative_path fp pkg [] ++ q2 :: [])) := by
    rw [hbeq]; simp [convertedRef]
  have hDm : ∀ p,
      findMatches p
        (convertedRef (a ++ [q1]) (get_relative_path fp pkg sub) q2) = [] ∧
      findMatchesBasic p
        (convertedRef (a ++ [q1]) (get_relative_path fp pkg sub) q2) = [] := by
    intro p
    rw [hD]
    exact converted_no_match p fp sub a [] hpkg hsub ha hq1 hq2
      (by decide) (by decide)
  have hBm : ∀ p,
      findMatches p
        (convertedRef (a ++ [q1]) (get_relative_path_basic fp pkg) q2) = [] ∧
      findMatchesBasic p
        (convertedRef (a ++ [q1]) (get_relative_path_basic fp pkg) q2) = [] := by
    intro p
    rw [hB]
    exact converted_no_match p fp [] a [] hpkg (by decide) ha hq1 hq2
      (by decide) (by decide)
  refine ⟨fun p _ => ⟨(hDm p).1, (hBm p).2⟩, ?_, ?_⟩
  · exact replaceDeepContent_id fp₂ (fun p _ => (hDm p).1)
  · exact replaceBasicContent_id fp₂ (fun p _ => (hBm p).2)

theorem C4_converted_reference_idempotent_witness :
    replaceDeepContent buttonPath
        (convertedRef ("from ".toList ++ ['"'])
          (get_relative_path buttonPath "types".toList "user".toList) '"') =
      (convertedRef ("from ".toList ++ ['"'])
        (get_relative_path buttonPath "types".toList "user".toList) '"', 0) ∧
    replaceBasicContent buttonPath
        (convertedRef ("from ".toList ++ ['"'])
          (get_relative_path_basic buttonPath "types".toList) '"') =
      (convertedRef ("from ".toList ++ ['"'])
        (get_relative_path_basic buttonPath "types".toList) '"', 0) :=
  ⟨(C4_converted_reference_idempotent buttonPath buttonPath "types".toList
      "user".toList "from ".toList '"' '"' (by decide) (by decide) (by decide)
      (by decide) (by decide)).2.1,
    (C4_converted_reference_idempotent buttonPath buttonPath "types".toList
      "user".toList "from ".toList '"' '"' (by decide) (by decide) (by decide)
      (by decide) (by decide)).2.2⟩

/-! ## Claim theorems: relative path computation -/

/-- C1: for the file `src/components/widgets/Button.ts` (two directories
below the source root) and a deep import of package `types` with sub-path
`user`, the computed import path is `../../types/user`: it has exactly as
many `..` components as the file's directory depth below the source root
(two), ends with `/user`, uses forward slashes (no backslash), and the deep
rewriter replaces the import reference in the file content accordingly. -/
theorem C1_button_concrete_scenario :
    get_relative_path buttonPath "types".toList "user".toList =
        "../../types/user".toList ∧
      dotdotCount ("../../types/user".toList) =
        (parentOf buttonPath).parts.length - SRC_DIR.parts.length ∧
      dotdotCount ("../../types/user".toList) = 2 ∧
      "/user".toList <:+ "../../types/user".toList ∧
      '\\' ∉ "../../types/user".toList ∧
      replaceDeepContent buttonPath
          "import { x } from \"@ankaa/types/user\"".toList =
        ("import { x } from \"../../types/user\"".toList, 1) := by
  decide

theorem backslash_not_mem_map (l : List Char) :
    '\\' ∉ l.map (fun c => if c = '\\' then '/' else c) := by
  intro h
  rcases List.mem_map.mp h with ⟨d, hd, he⟩
  by_cases hds : d = '\\'
  · rw [hds] at he
    simp at he
  · rw [if_neg hds] at he
    exact hds he

/-- On comparable paths the computed relative path has no backslash and is an
explicit relative import. -/
theorem rel_success_shape (fp : PyPath) (pkg sub : List Char)
    (hd : fp.drive = SRC_DIR.drive) :
    '\\' ∉ get_relative_path fp pkg sub ∧
      (List.isPrefixOf "..".toList (get_relative_path fp pkg sub) = true ∨
        List.isPrefixOf "./".toList (get_relative_path fp pkg sub) = true) := by
  have htd : (targetDirOf pkg sub).drive = SRC_DIR.drive := by
    unfold targetDirOf
    split <;> rfl
  have hne : ¬(targetDirOf pkg sub).drive ≠ (parentOf fp).drive := by
    rw [htd]
    have hpd : (parentOf fp).drive = fp.drive := rfl
    rw [hpd, hd]
    simp
  have hrel : relpath (targetDirOf pkg sub) (parentOf fp) =
      some (joinSlash
        (if (relpathSegs (targetDirOf pkg sub).parts (parentOf fp).parts).isEmpty
          then [['.']]
          else relpathSegs (targetDirOf pkg sub).parts (parentOf fp).parts)) := by
    unfold relpath
    rw [if_neg hne]
  set r := joinSlash
    (if (relpathSegs (targetDirOf pkg sub).parts (parentOf fp).parts).isEmpty
      then [['.']]
      else relpathSegs (targetDirOf pkg sub).parts (parentOf fp).parts)
    with hrdef
  have hg : get_relative_path fp pkg sub =
      (if startsDotDot (r.map (fun c => if c = '\\' then '/' else c)) = true
        then r.map (fun c => if c = '\\' then '/' else c)
        else '.' :: '/' :: r.map (fun c => if c = '\\' then '/' else c)) := by
    unfold get_relative_path
    rw [hrel]
  rw [hg]
  by_cases hsd : startsDotDot (r.map (fun c => if c = '\\' then '/' else c))
  · rw [if_pos hsd]
    exact ⟨backslash_not_mem_map r, Or.inl hsd⟩
  · rw [if_neg hsd]
    constructor
    · intro hmem
      rcases List.mem_cons.mp hmem with hc | hc
      · exact absurd hc (by decide)
      rcases List.mem_cons.mp hc with hc | hc
      · exact absurd hc (by decide)
      · exact backslash_not_mem_map r hc
    · exact Or.inr (List.isPrefixOf_iff_prefix.mpr
        ⟨r.map (fun c => if c = '\\' then '/' else c), rfl⟩)

/-- C2 (amended): whenever the file path is comparable with the source tree
(same drive, so `relpath` succeeds), the string returned by
`get_relative_path` — in either script — contains no backslash and begins
with `..` or `./`.  (When `relpath` fails the fallback bare string is
returned instead; see the counterexample and C8.) -/
theorem C2_relative_path_shape (fp : PyPath) (pkg sub : List Char)
    (hpkg : pkg ∈ PACKAGES) (hd : fp.drive = SRC_DIR.drive) :
    ('\\' ∉ get_relative_path fp pkg sub ∧
      (List.isPrefixOf "..".toList (get_relative_path fp pkg sub) = true ∨
        List.isPrefixOf "./".toList (get_relative_path fp pkg sub) = true)) ∧
    ('\\' ∉ get_relative_path_basic fp pkg ∧
      (List.isPrefixOf "..".toList (get_relative_path_basic fp pkg) = true ∨
        List.isPrefixOf "./".toList (get_relative_path_basic fp pkg) = true)) :=
  ⟨rel_success_shape fp pkg sub hd, rel_success_shape fp pkg [] hd⟩

/-- A file path on a different drive than the source tree (the `ValueError`
case of `os.path.relpath`). -/
def crossDrivePath : PyPath := ⟨"C:".toList, ["proj".toList, "a.ts".toList]⟩

/-- C2 counterexample: on a non-comparable file path the returned string is
the bare `package/subpath` fallback, which begins with neither `..` nor
`./` — the claim as stated does not hold for every file path. -/
theorem C2_counterexample_cross_drive :
    get_relative_path crossDrivePath "types".toList "user".toList =
        "types/user".toList ∧
      List.isPrefixOf "..".toList
        (get_relative_path crossDrivePath "types".toList "user".toList) =
        false ∧
      List.isPrefixOf "./".toList
        (get_relative_path crossDrivePath "types".toList "user".toList) =
        false ∧
      get_relative_path_basic crossDrivePath "types".toList =
        "types".toList ∧
      List.isPrefixOf "..".toList
        (get_relative_path_basic crossDrivePath "types".toList) = false ∧
      List.isPrefixOf "./".toList
        (get_relative_path_basic crossDrivePath "types".toList) = false := by
  decide

theorem C2_relative_path_shape_witness :
    ('\\' ∉ get_relative_path buttonPath "types".toList "user".toList ∧
      (List.isPrefixOf "..".toList
          (get_relative_path buttonPath "types".toList "user".toList) = true ∨
        List.isPrefixOf "./".toList
          (get_relative_path buttonPath "types".toList "user".toList) =
          true)) ∧
    ('\\' ∉ get_relative_path_basic buttonPath "types".toList ∧
      (List.isPrefixOf "..".toList
          (get_relative_path_basic buttonPath "types".toList) = true ∨
        List.isPrefixOf "./".toList
          (get_relative_path_basic buttonPath "types".toList) = true)) :=
  C2_relative_path_shape buttonPath "types".toList "user".toList (by decide)
    (by decide)

/-- C8: when the relative-path computation fails (`relpath` raises, i.e.
returns `none` because the paths are not comparable), `get_relative_path`
does not fail: the deep script returns the fallback `package/subpath`
(`package` when no sub-path), and the basic script returns `package`. -/
theorem C8_fallback_on_relpath_failure (fp : PyPath) (pkg sub : List Char)
    (h : relpath (targetDirOf pkg sub) (parentOf fp) = none)
    (hb : relpath (targetDirOf pkg []) (parentOf fp) = none) :
    get_relative_path fp pkg sub =
        (if sub.isEmpty then pkg else pkg ++ '/' :: sub) ∧
      get_relative_path_basic fp pkg = pkg := by
  constructor
  · unfold get_relative_path
    rw [h]
  · unfold get_relative_path_basic
    rw [hb]

theorem C8_fallback_on_relpath_failure_witness :
    relpath (targetDirOf "types".toList "user".toList)
        (parentOf crossDrivePath) = none ∧
      get_relative_path crossDrivePath "types".toList "user".toList =
        (if ("user".toList).isEmpty then "types".toList
          else "types".toList ++ '/' :: "user".toList) ∧
      get_relative_path_basic crossDrivePath "types".toList =
        "types".toList :=
  ⟨by decide,
    (C8_fallback_on_relpath_failure crossDrivePath "types".toList
      "user".toList (by decide) (by decide)).1,
    (C8_fallback_on_relpath_failure crossDrivePath "types".toList
      "user".toList (by decide) (by decide)).2⟩

/-! ## Claim theorems: rewriter frame and error behaviour -/

/-- The content contains no import reference to any configured package
(no match of either script's pattern). -/
def NoRef (c : List Char) : Prop :=
  ∀ p ∈ PACKAGES, findMatches p c = [] ∧ findMatchesBasic p c = []

instance (c : List Char) : Decidable (NoRef c) := by
  unfold NoRef; infer_instance

theorem written_ne_deep (fp₂ : PyPath) (c₂ : List Char) (w₂ : Bool)
    (out : List Char)
    (hw : (replace_deep_imports_in_file fp₂ (some c₂) w₂).written = some out) :
    out ≠ c₂ := by
  have hw' : (if (replaceDeepContent fp₂ c₂).1 ≠ c₂ then
      (if w₂ then
        (⟨true, (replaceDeepContent fp₂ c₂).2,
          some (replaceDeepContent fp₂ c₂).1⟩ : FileOutcome)
      else ⟨false, 0, none⟩)
     else ⟨false, 0, none⟩).written = some out := hw
  split at hw'
  · rename_i hch
    split at hw'
    · simp only [Option.some.injEq] at hw'
      rw [← hw']
      exact hch
    · simp at hw'
  · simp at hw'

theorem written_ne_basic (fp₂ : PyPath) (c₂ : List Char) (w₂ : Bool)
    (out : List Char)
    (hw : (replace_imports_in_file fp₂ (some c₂) w₂).written = some out) :
    out ≠ c₂ := by
  have hw' : (if (replaceBasicContent fp₂ c₂).1 ≠ c₂ then
      (if w₂ then
        (⟨true, (replaceBasicContent fp₂ c₂).2,
          some (replaceBasicContent fp₂ c₂).1⟩ : FileOutcome)
      else ⟨false, 0, none⟩)
     else ⟨false, 0, none⟩).written = some out := hw
  split at hw'
  · rename_i hch
    split at hw'
    · simp only [Option.some.injEq] at hw'
      rw [← hw']
      exact hch
    · simp at hw'
  · simp at hw'

/-- C5: when a file's content contains no reference to any configured
package, both rewriters return `(False, 0)` and never write the file, whose
content stays byte-identical; more generally either rewriter writes a file
only with content that differs from the original. -/
theorem C5_no_reference_not_modified (fp : PyPath) (c : List Char) (w : Bool)
    (h : NoRef c) :
    replaceDeepContent fp c = (c, 0) ∧
    replaceBasicContent fp c = (c, 0) ∧
    replace_deep_imports_in_file fp (some c) w = ⟨false, 0, none⟩ ∧
    replace_imports_in_file fp (some c) w = ⟨false, 0, none⟩ ∧
    (∀ (fp₂ : PyPath) (c₂ : List Char) (w₂ : Bool) (out : List Char),
      ((replace_deep_imports_in_file fp₂ (some c₂) w₂).written = some out →
        out ≠ c₂) ∧
      ((replace_imports_in_file fp₂ (some c₂) w₂).written = some out →
        out ≠ c₂)) := by
  have hdeep := replaceDeepContent_id fp (fun p hp => (h p hp).1)
  have hbasic := replaceBasicContent_id fp (fun p hp => (h p hp).2)
  refine ⟨hdeep, hbasic, ?_, ?_, ?_⟩
  · simp [replace_deep_imports_in_file, hdeep]
  · simp [replace_imports_in_file, hbasic]
  · intro fp₂ c₂ w₂ out
    exact ⟨written_ne_deep fp₂ c₂ w₂ out, written_ne_basic fp₂ c₂ w₂ out⟩

theorem C5_no_reference_not_modified_witness :
    NoRef "const x = 1".toList ∧
    replace_deep_imports_in_file buttonPath (some "const x = 1".toList)
        true = ⟨false, 0, none⟩ ∧
    replace_imports_in_file buttonPath (some "const x = 1".toList) true =
      ⟨false, 0, none⟩ :=
  ⟨by decide,
    (C5_no_reference_not_modified buttonPath "const x = 1".toList true
      (by decide)).2.2.1,
    (C5_no_reference_not_modified buttonPath "const x = 1".toList true
      (by decide)).2.2.2.1⟩

/-- C10: when substitutions were computed for a file but writing it back
fails, both rewriters return `(False, 0)`: the run sees the file as
unmodified and the accumulated per-file substitution count is discarded,
contributing nothing to the run's totals. -/
theorem C10_write_failure_discards_count (fp : PyPath) (c : List Char)
    (h : (replaceDeepContent fp c).1 ≠ c)
    (hb : (replaceBasicContent fp c).1 ≠ c)
    (hex : excluded fp = false) :
    replace_deep_imports_in_file fp (some c) false = ⟨false, 0, none⟩ ∧
    replace_imports_in_file fp (some c) false = ⟨false, 0, none⟩ ∧
    process_directory_deep [⟨fp, true, some c, false⟩] = ⟨1, 0, 0, []⟩ ∧
    process_directory_basic [⟨fp, true, some c, false⟩] = ⟨1, 0, 0, []⟩ := by
  have h1 : replace_deep_imports_in_file fp (some c) false =
      ⟨false, 0, none⟩ := by
    simp [replace_deep_imports_in_file, h]
  have h2 : replace_imports_in_file fp (some c) false = ⟨false, 0, none⟩ := by
    simp [replace_imports_in_file, hb]
  refine ⟨h1, h2, ?_, ?_⟩
  · simp [process_directory_deep, stepDir, hex, h1]
  · simp [process_directory_basic, stepDir, hex, h2]

theorem C10_write_failure_discards_count_witness :
    replace_deep_imports_in_file buttonPath
        (some "from \"@ankaa/types\"".toList) false = ⟨false, 0, none⟩ ∧
    replace_imports_in_file buttonPath
        (some "from \"@ankaa/types\"".toList) false = ⟨false, 0, none⟩ :=
  ⟨(C10_write_failure_discards_count buttonPath
      "from \"@ankaa/types\"".toList (by decide) (by decide) (by decide)).1,
    (C10_write_failure_discards_count buttonPath
      "from \"@ankaa/types\"".toList (by decide) (by decide) (by decide)).2.1⟩

/-! ## Claim theorem: the first-occurrence substitution slip (C3) -/

/-- A file content on which `content.replace(old_text, new_text, 1)` hits an
occurrence of the matched text other than the match itself: the sub-path of
the first match recreates `from '@ankaa/types'` inside the rewritten text. -/
def c3content : List Char :=
  "from \"@ankaa/types/Xfrom '@ankaa/types' from '@ankaa/types'".toList

/-- C3: the deep pattern finds two matches in `c3content` and the loop
performs two single-occurrence substitutions (the count equals the number of
matches), but the second substitution replaces the first occurrence of the
matched text — which lies inside the text produced by the first
substitution — so the actually matched trailing reference
`from '@ankaa/types'` is still present, unconverted, in the result: the
matched occurrence itself was not substituted. -/
theorem C3_first_occurrence_substitution_slip :
    (findMatches "types".toList c3content).length = 2 ∧
    replaceDeepContent buttonPath c3content =
      ("from \"../../types/Xfrom '../../types' from '@ankaa/types'".toList,
        2) ∧
    "from '@ankaa/types'".toList <:+:
      (replaceDeepContent buttonPath c3content).1 := by
  decide

/-! ## Claim theorems: directory traversal -/

theorem stepDir_skip (rw : PyPath → Option (List Char) → Bool → FileOutcome)
    (st : Stats) (e : FileEntry) (hex : excluded e.path = true) :
    stepDir rw st e = st := by
  unfold stepDir
  rw [if_pos hex]

theorem stepDir_eq (rw : PyPath → Option (List Char) → Bool → FileOutcome)
    (st : Stats) (e : FileEntry) :
    stepDir rw st e =
      if excluded e.path then st
      else if !e.isFile then st
      else if (rw e.path e.readRes e.writeOk).modified then
        ⟨st.files_processed + 1, st.files_modified + 1,
          st.total_replacements + (rw e.path e.readRes e.writeOk).count,
          st.errors⟩
      else
        ⟨st.files_processed + 1, st.files_modified, st.total_replacements,
          st.errors⟩ := rfl

theorem stepDir_errors (rw : PyPath → Option (List Char) → Bool → FileOutcome)
    (st : Stats) (e : FileEntry) : (stepDir rw st e).errors = st.errors := by
  rw [stepDir_eq]
  split
  · rfl
  split
  · rfl
  split <;> rfl

theorem foldDir_errors (rw : PyPath → Option (List Char) → Bool → FileOutcome)
    (files : List FileEntry) :
    ∀ st : Stats, (files.foldl (stepDir rw) st).errors = st.errors := by
  induction files with
  | nil => intro st; rfl
  | cons e es ih =>
    intro st
    rw [List.foldl_cons, ih (stepDir rw st e), stepDir_errors]

theorem stepDir_not_file (rw : PyPath → Option (List Char) → Bool → FileOutcome)
    (st : Stats) (e : FileEntry) (hf : e.isFile = false) :
    stepDir rw st e = st := by
  unfold stepDir
  split
  · rfl
  · rw [if_pos (by rw [hf]; rfl)]

theorem stepDir_processed_succ (rw : PyPath → Option (List Char) → Bool → FileOutcome)
    (st : Stats) (e : FileEntry) (hex : excluded e.path = false)
    (hf : e.isFile = true) :
    (stepDir rw st e).files_processed = st.files_processed + 1 := by
  rw [stepDir_eq]
  rw [if_neg (by rw [hex]; simp), if_neg (by rw [hf]; simp)]
  split <;> rfl

theorem foldDir_processed (rw : PyPath → Option (List Char) → Bool → FileOutcome)
    (files : List FileEntry) :
    ∀ st : Stats, (files.foldl (stepDir rw) st).files_processed =
      st.files_processed +
        (files.filter (fun e => !excluded e.path && e.isFile)).length := by
  induction files with
  | nil => intro st; simp
  | cons e es ih =>
    intro st
    rw [List.foldl_cons, ih (stepDir rw st e)]
    by_cases hex : excluded e.path
    · rw [stepDir_skip rw st e hex]
      rw [List.filter_cons]
      rw [if_neg (by rw [hex]; simp)]
    · have hex' : excluded e.path = false := by
        rw [Bool.not_eq_true] at hex; exact hex
      by_cases hf : e.isFile
      · rw [stepDir_processed_succ rw st e hex' hf]
        rw [List.filter_cons, if_pos (by rw [hex', hf]; rfl)]
        simp only [List.length_cons]
        omega
      · have hf' : e.isFile = false := by
          rw [Bool.not_eq_true] at hf; exact hf
        rw [stepDir_not_file rw st e hf']
        rw [List.filter_cons, if_neg (by rw [hf']; simp)]

/-- C7 (amended): a read or write error on an individual file leaves that
file unmodified and the run continues over the remaining files (every
non-excluded regular candidate is counted as processed, whatever its read
and write outcomes), but the error is only printed, never added to the
run's error list: the `errors` list stays empty on every run, so the
summary's truncated error section (first 10) never shows anything. -/
theorem C7_errors_never_recorded (files : List FileEntry) :
    (process_directory_deep files).errors = [] ∧
    (process_directory_basic files).errors = [] ∧
    summaryErrors (process_directory_deep files) = [] ∧
    summaryErrors (process_directory_basic files) = [] ∧
    (process_directory_deep files).files_processed =
      (files.filter (fun e => !excluded e.path && e.isFile)).length ∧
    (process_directory_basic files).files_processed =
      (files.filter (fun e => !excluded e.path && e.isFile)).length ∧
    (∀ (fp : PyPath) (w : Bool),
      replace_deep_imports_in_file fp none w = ⟨false, 0, none⟩ ∧
      replace_imports_in_file fp none w = ⟨false, 0, none⟩) := by
  have he1 : (process_directory_deep files).errors = [] :=
    foldDir_errors _ files ⟨0, 0, 0, []⟩
  have he2 : (process_directory_basic files).errors = [] :=
    foldDir_errors _ files ⟨0, 0, 0, []⟩
  refine ⟨he1, he2, ?_, ?_, ?_, ?_, ?_⟩
  · unfold summaryErrors
    rw [he1]
    rfl
  · unfold summaryErrors
    rw [he2]
    rfl
  · have := foldDir_processed replace_deep_imports_in_file files ⟨0, 0, 0, []⟩
    simpa using this
  · have := foldDir_processed replace_imports_in_file files ⟨0, 0, 0, []⟩
    simpa using this
  · intro fp w
    exact ⟨rfl, rfl⟩

/-- A run with one file whose read fails, then one readable file: the run
continues (both candidates are processed) yet the error list — and hence the
summary's error section — is empty, contradicting "the error is added to
the run's error list". -/
theorem C7_counterexample_error_not_recorded :
    process_directory_basic
        [⟨buttonPath, true, none, true⟩,
          ⟨buttonPath, true, some "x".toList, true⟩] = ⟨2, 0, 0, []⟩ ∧
    process_directory_deep
        [⟨buttonPath, true, none, true⟩,
          ⟨buttonPath, true, some "x".toList, true⟩] = ⟨2, 0, 0, []⟩ ∧
    summaryErrors (process_directory_basic
      [⟨buttonPath, true, none, true⟩,
        ⟨buttonPath, true, some "x".toList, true⟩]) = [] := by
  decide

/-- C9: a candidate whose path contains a `node_modules` or `.git` segment is
skipped before any file access: inserting such an entry anywhere in the
traversal leaves the entire run result unchanged (it is never read, never
counted as processed, never rewritten), even when its name matches the
`.ts`/`.tsx` filter. -/
theorem C9_excluded_never_touched (pre post : List FileEntry) (e : FileEntry)
    (hex : excluded e.path = true) (hglob : matchesTsGlob e.path = true) :
    process_directory_deep (pre ++ e :: post) =
      process_directory_deep (pre ++ post) ∧
    process_directory_basic (pre ++ e :: post) =
      process_directory_basic (pre ++ post) := by
  constructor
  · unfold process_directory_deep
    rw [List.foldl_append, List.foldl_append, List.foldl_cons,
      stepDir_skip _ _ _ hex]
  · unfold process_directory_basic
    rw [List.foldl_append, List.foldl_append, List.foldl_cons,
      stepDir_skip _ _ _ hex]

/-- A `.ts` file under `node_modules` containing a real import reference. -/
def nmEntry : FileEntry :=
  ⟨⟨[], ["node_modules".toList, "Button.ts".toList]⟩, true,
    some "from \"@ankaa/types\"".toList, true⟩

theorem C9_excluded_never_touched_witness :
    process_directory_deep ([] ++ nmEntry :: []) =
      process_directory_deep ([] ++ []) ∧
    process_directory_basic ([] ++ nmEntry :: []) =
      process_directory_basic ([] ++ []) :=
  C9_excluded_never_touched [] [] nmEntry (by decide) (by decide)
